import Mathlib

/-!
Shallow embedding of the image-reference rewrite engine of
`optimize-markdown.js` (class `MarkdownOptimizer`).

Documents and strings are modelled as `List Char`.  Each JavaScript
string operation used by the engine is translated into an executable
Lean function on character lists:

* `String.prototype.includes`   → `isSubstring`
* `String.prototype.startsWith` → `List.isPrefixOf`
* `String.prototype.replace` with a plain-string pattern
  (first occurrence only)      → `replaceFirst`
* `String.prototype.trim`       → `trimStr`
* the anchored regular expressions of `optimizeAltText` and the
  WebP-extension replace        → `stripAltHead`, `stripAltExt`,
  `toWebpPath` (see the comments at each definition)
* the global-regex scan loops of `analyzeImages` → `scanMdAux`,
  `scanHtmlAux` (leftmost match, resume at the end of each match).
-/

/-- Character list of a string literal. -/
def str (s : String) : List Char := s.data

/-- The configuration record merged in the `MarkdownOptimizer`
constructor (`{addLazyLoading: true, useWebP: true, addDimensions: true,
optimizeAltText: true, backupFiles: true, ...options}`). -/
structure Options where
  addLazyLoading : Bool
  useWebP : Bool
  addDimensions : Bool
  optimizeAltText : Bool
  backupFiles : Bool
  deriving DecidableEq

/-- All constructor defaults enabled. -/
def defaultOptions : Options :=
  { addLazyLoading := true, useWebP := true, addDimensions := true,
    optimizeAltText := true, backupFiles := true }

/-- JavaScript `\s` character class (also the class used by
`String.prototype.trim`). -/
def jsWs (c : Char) : Bool :=
  c = ' ' || c = '\t' || c = '\n' || c = '\r' || c = '\x0b' || c = '\x0c' ||
  c = '\u00A0' || c = '\u1680' || ('\u2000' ≤ c && c ≤ '\u200A') ||
  c = '\u2028' || c = '\u2029' || c = '\u202F' || c = '\u205F' ||
  c = '\u3000' || c = '\uFEFF'

/-- Case folding used for the `/i` regex flag (`Char.toLower`; all the
case-insensitive patterns of the source are ASCII). -/
def lowerList (s : List Char) : List Char := s.map Char.toLower

/-- `s.includes(pat)`: substring containment. -/
def isSubstring (pat : List Char) : List Char → Bool
  | [] => pat.isEmpty
  | c :: t => pat.isPrefixOf (c :: t) || isSubstring pat t

/-- `s.replace(pat, rep)` with a plain-string `pat`: replace the first
occurrence only; if `pat` does not occur the string is unchanged. -/
def replaceFirst (pat rep : List Char) (s : List Char) : List Char :=
  match s with
  | [] => if pat.isEmpty then rep else []
  | c :: t =>
    if pat.isPrefixOf (c :: t) then rep ++ (c :: t).drop pat.length
    else c :: replaceFirst pat rep t

/-- `String.prototype.trim`: drop `\s` characters from both ends. -/
def trimStr (s : List Char) : List Char :=
  ((s.dropWhile jsWs).reverse.dropWhile jsWs).reverse

/-- Regex alternation at the head of a string: return the length of the
first alternative that is a prefix (regex alternation tries the
alternatives left to right; the alternatives used in the source are
pairwise non-prefixing, so no backtracking is observable). -/
def matchAlt (alts : List (List Char)) (s : List Char) : Option Nat :=
  match alts with
  | [] => none
  | a :: rest => if a.isPrefixOf s then some a.length else matchAlt rest s

/-- Continuation of the redundant-words regex after its first
alternation matched `n1` characters of the lowered alt text `ls`: a
space, then `of` or `showing`, then a space. -/
def comboTail (ls : List Char) (n1 : Nat) : Option Nat :=
  match ls.drop n1 with
  | y :: r2 =>
    if y = ' ' then
      match matchAlt [str "of", str "showing"] r2 with
      | none => none
      | some n2 =>
        match r2.drop n2 with
        | z :: _ => if z = ' ' then some (n1 + 1 + n2 + 1) else none
        | [] => none
    else none
  | [] => none

/-- Length matched by the anchored regex
`/^(image|picture|photo|screenshot) (of|showing) /i` on `s`, if any. -/
def reHeadLen (s : List Char) : Option Nat :=
  match matchAlt [str "image", str "picture", str "photo", str "screenshot"] (lowerList s) with
  | none => none
  | some n1 => comboTail (lowerList s) n1

/-- `alt.replace(/^(image|picture|photo|screenshot) (of|showing) /i, '')`:
delete the matched leading span, if the anchored pattern matches. -/
def stripAltHead (s : List Char) : List Char :=
  match reHeadLen s with
  | some n => s.drop n
  | none => s

/-- First extension (dot included) of `exts` that the lowered string
ends with, returned with its length.  This is the effect of an anchored
`/\.(e1|e2|...)$/i` regex: the dollar anchor forces the match to be a
suffix, and the listed extensions are pairwise non-co-suffixing, so at
most one can match. -/
def matchExtSuffix (exts : List (List Char)) (ls : List Char) : Option Nat :=
  match exts with
  | [] => none
  | e :: rest => if e.isSuffixOf ls then some e.length else matchExtSuffix rest ls

/-- `alt.replace(/\.(png|jpg|jpeg|gif)$/i, '')`. -/
def stripAltExt (s : List Char) : List Char :=
  match matchExtSuffix [str ".png", str ".jpg", str ".jpeg", str ".gif"] (lowerList s) with
  | some n => s.take (s.length - n)
  | none => s

/-- `optimized.charAt(0).toUpperCase() + optimized.slice(1)` (applied by
the source only when `optimized` is non-empty; on the empty string this
is the identity, matching the source's `if (optimized)` guard). -/
def capitalizeStep (s : List Char) : List Char :=
  match s with
  | [] => []
  | c :: t => c.toUpper :: t

/-- `MarkdownOptimizer.optimizeAltText`: pass empty (falsy) alt text or
option-disabled alt text through unchanged; otherwise strip the
redundant-words head, strip a trailing image extension, trim, and
capitalize the first character. -/
def optimizeAltText (opts : Options) (alt : List Char) : List Char :=
  if alt.isEmpty || !opts.optimizeAltText then alt
  else capitalizeStep (trimStr (stripAltExt (stripAltHead alt)))

/-- The asset-image classification of `optimizeMarkdownImage`:
`src.startsWith('./assets/') || src.startsWith('../assets/') ||
src.includes('/assets/')`. -/
def isAssetImage (src : List Char) : Bool :=
  (str "./assets/").isPrefixOf src || (str "../assets/").isPrefixOf src ||
  isSubstring (str "/assets/") src

/-- `src.replace(/\.(png|jpg|jpeg)$/i, '.webp')`. -/
def toWebpPath (src : List Char) : List Char :=
  match matchExtSuffix [str ".png", str ".jpg", str ".jpeg"] (lowerList src) with
  | some n => src.take (src.length - n) ++ str ".webp"
  | none => src

/-- The markdown image reference text `![alt](src)` (this is exactly the
text matched by the markdown scan regex, and also the string rebuilt by
the non-asset branch of `optimizeMarkdownImage`). -/
def mdFull (alt src : List Char) : List Char :=
  '!' :: '[' :: (alt ++ ']' :: '(' :: (src ++ [')']))

/-- Template segment of the `<picture>` block before the WebP path. -/
def picA : List Char := str "<picture>\n  <source srcset=\""

/-- Template segment between the WebP path and the original source. -/
def picB : List Char := str "\" type=\"image/webp\">\n  <img src=\""

/-- Template segment between the original source and the alt text. -/
def picC : List Char := str "\" alt=\""

/-- Template segment after the alt text. -/
def picD : List Char := str "\" loading=\"lazy\" style=\"max-width: 100%; height: auto;\">\n</picture>"

/-- `MarkdownOptimizer.optimizeMarkdownImage`: non-asset references are
reproduced unchanged; asset references become the `<picture>` block with
the WebP sibling path, the original source, the optimized alt text, a
hardcoded `loading="lazy"` and the responsive inline style. -/
def optimizeMarkdownImage (opts : Options) (alt src : List Char) : List Char :=
  if !isAssetImage src then mdFull alt src
  else picA ++ toWebpPath src ++ picB ++ src ++ picC ++ optimizeAltText opts alt ++ picD

/-- Inserted text for the lazy-loading rewrite of an HTML tag. -/
def imgLazyIns : List Char := str "<img loading=\"lazy\""

/-- Inserted text for the responsive-style rewrite of an HTML tag. -/
def imgStyleIns : List Char := str "<img style=\"max-width: 100%; height: auto;\""

/-- `MarkdownOptimizer.optimizeHtmlImage` (the `src` argument of the
source is unused there, as in the source). -/
def optimizeHtmlImage (opts : Options) (imgTag : List Char) (src : List Char) : List Char :=
  let _ := src
  let hasLazyLoading := isSubstring (str "loading=") imgTag
  let hasWebP := isSubstring (str "<picture>") imgTag || isSubstring (str "srcset") imgTag
  if hasLazyLoading && hasWebP then imgTag
  else
    let t1 := if !hasLazyLoading && opts.addLazyLoading then
        replaceFirst (str "<img") imgLazyIns imgTag
      else imgTag
    if !isSubstring (str "style=") t1 && !isSubstring (str "max-width") t1 then
      replaceFirst (str "<img") imgStyleIns t1
    else t1

/-- Kind of a scanned image reference (the `type` field of the records
built by `analyzeImages`). -/
inductive RefKind
  | markdown
  | html
  deriving DecidableEq

/-- One detected image reference (`analyzeImages` record: `type`, `full`,
`alt`, `src`, `index`).  HTML records carry no alt text in the source
(the field is absent and never read); it is modelled as `[]`. -/
structure ImageRef where
  kind : RefKind
  full : List Char
  alt : List Char
  src : List Char
  index : Nat
  deriving DecidableEq

/-- Split a character list at the first occurrence of `c`: the part
before (which contains no `c`) and the part after. -/
def splitAtChar (c : Char) : List Char → Option (List Char × List Char)
  | [] => none
  | x :: t =>
    if x = c then some ([], t)
    else
      match splitAtChar c t with
      | some p => some (x :: p.1, p.2)
      | none => none

/-- Match of the markdown image regex `!\[([^\]]*)\]\(([^)]+)\)` at the
head of `s`: alt text, source path, and total matched length.  Each
character class excludes exactly its closing delimiter, so each span
ends at the first following delimiter (no observable backtracking), and
the path span must be non-empty (`+`). -/
def matchMdAt (s : List Char) : Option (List Char × List Char × Nat) :=
  match s with
  | c1 :: c2 :: r1 =>
    if c1 = '!' && c2 = '[' then
      match splitAtChar ']' r1 with
      | some (alt, r2) =>
        match r2 with
        | c3 :: r3 =>
          if c3 = '(' then
            match splitAtChar ')' r3 with
            | some (src, _) =>
              if src.isEmpty then none else some (alt, src, alt.length + src.length + 5)
            | none => none
          else none
        | [] => none
      | none => none
    else none
  | _ => none

/-- Markdown-image scan loop of `analyzeImages`: leftmost match wins and
scanning resumes at the end of each match (JavaScript global-regex
`exec` loop).  The fuel argument (initially the document length) only
bounds the recursion; the scanned list shrinks at every step, so the
fuel is never exhausted before the list is. -/
def scanMdAux : Nat → List Char → Nat → List ImageRef
  | 0, _, _ => []
  | fuel + 1, s, i =>
    match s with
    | [] => []
    | c :: t =>
      match matchMdAt (c :: t) with
      | some (alt, src, len) =>
        { kind := RefKind.markdown, full := (c :: t).take len, alt := alt,
          src := src, index := i } :: scanMdAux fuel (t.drop (len - 1)) (i + len)
      | none => scanMdAux fuel t (i + 1)

/-- All markdown-syntax image references of a document, left to right. -/
def scanMd (content : List Char) : List ImageRef :=
  scanMdAux content.length content 0

/-- Match of the part `src\s*=\s*["']([^"']+)["'][^>]*>` of the HTML
image regex at the head of `s` (case-insensitive on `src`): captured
source value and consumed length.  Every quantifier here stops at the
first character outside its class, which must then match the following
literal, so this part is deterministic. -/
def matchSrcTail (s : List Char) : Option (List Char × Nat) :=
  if (str "src").isPrefixOf (lowerList (s.take 3)) then
    let s1 := s.drop 3
    let w1 := (s1.takeWhile jsWs).length
    let s2 := s1.drop w1
    match s2 with
    | '=' :: s3 =>
      let w2 := (s3.takeWhile jsWs).length
      let s4 := s3.drop w2
      match s4 with
      | q :: s5 =>
        if q = '"' || q = '\'' then
          let v := s5.takeWhile (fun c => !(c = '"' || c = '\''))
          if v.isEmpty then none
          else
            match s5.drop v.length with
            | q2 :: s6 =>
              if q2 = '"' || q2 = '\'' then
                let tl := (s6.takeWhile (fun c => !(c = '>'))).length
                match s6.drop tl with
                | '>' :: _ => some (v, 3 + w1 + 1 + w2 + 1 + v.length + 1 + tl + 1)
                | _ => none
              else none
            | [] => none
        else none
      | [] => none
    | _ => none
  else none

/-- Backtracking of the greedy `\s+[^>]*` gap of the HTML image regex:
the `src...` part may start at any offset within the gap, and the
greedy quantifiers make the engine try the largest offset first; the
first offset (counting down) whose tail matches wins. -/
def tryGaps (t : List Char) : Nat → Option (List Char × Nat)
  | 0 => matchSrcTail t
  | d + 1 =>
    match matchSrcTail (t.drop (d + 1)) with
    | some (v, n) => some (v, d + 1 + n)
    | none => tryGaps t d

/-- Match of the HTML image regex
`<img\s+[^>]*src\s*=\s*["']([^"']+)["'][^>]*>` (flags `gi`) at the head
of `s`: captured `src` value and total matched length.  `<img` is
matched case-insensitively; at least one whitespace character must
follow it; the gap before `src` consists of non-`>` characters. -/
def matchHtmlAt (s : List Char) : Option (List Char × Nat) :=
  if (str "<img").isPrefixOf (lowerList (s.take 4)) then
    match s.drop 4 with
    | c :: rest =>
      if jsWs c then
        let gap := (rest.takeWhile (fun x => !(x = '>'))).length
        match tryGaps rest gap with
        | some (v, n) => some (v, 5 + n)
        | none => none
      else none
    | [] => none
  else none

/-- HTML-image scan loop of `analyzeImages`. -/
def scanHtmlAux : Nat → List Char → Nat → List ImageRef
  | 0, _, _ => []
  | fuel + 1, s, i =>
    match s with
    | [] => []
    | c :: t =>
      match matchHtmlAt (c :: t) with
      | some (v, len) =>
        { kind := RefKind.html, full := (c :: t).take len, alt := [],
          src := v, index := i } :: scanHtmlAux fuel (t.drop (len - 1)) (i + len)
      | none => scanHtmlAux fuel t (i + 1)

/-- All HTML-syntax image references of a document, left to right. -/
def scanHtml (content : List Char) : List ImageRef :=
  scanHtmlAux content.length content 0

/-- `MarkdownOptimizer.analyzeImages`: all markdown matches first, then
all HTML matches (two independent passes over the full document). -/
def analyzeImages (content : List Char) : List ImageRef :=
  scanMd content ++ scanHtml content

/-- The rewrite applied by `optimizeImageReferences` to one reference:
markdown references are rewritten from their alt/src fields, HTML
references from their full text and src. -/
def rewriteOf (opts : Options) (img : ImageRef) : List Char :=
  match img.kind with
  | RefKind.markdown => optimizeMarkdownImage opts img.alt img.src
  | RefKind.html => optimizeHtmlImage opts img.full img.src

/-- Result of one `optimizeImageReferences` call: the reassembled
document and the number of references whose rewrite differed from the
original text (the `stats.imagesOptimized` increments of that call). -/
structure OptRes where
  content : List Char
  count : Nat
  deriving DecidableEq

/-- Splice loop of `optimizeImageReferences`: for each reference in scan
order, if the rewrite differs from the original text, replace the span
`[index + offset, index + offset + full.length)` of the current content
by the rewrite and add the length difference to the running offset. -/
def applyLoop (opts : Options) : List ImageRef → List Char → Int → Nat → OptRes
  | [], content, _, count => { content := content, count := count }
  | img :: rest, content, offset, count =>
    let optimized := rewriteOf opts img
    if optimized = img.full then applyLoop opts rest content offset count
    else
      let adjusted := (Int.ofNat img.index + offset).toNat
      let content' := content.take adjusted ++ optimized ++
        content.drop (adjusted + img.full.length)
      applyLoop opts rest content'
        (offset + Int.ofNat optimized.length - Int.ofNat img.full.length) (count + 1)

/-- `MarkdownOptimizer.optimizeImageReferences`: scan, rewrite each
reference, splice the changed ones back at offset-adjusted positions. -/
def optimizeImageReferences (opts : Options) (content : List Char) : OptRes :=
  applyLoop opts (analyzeImages content) content 0 0

/-! ## Basic facts about the string helpers -/

theorem isSubstring_true_iff {p s : List Char} : isSubstring p s = true ↔ p <:+: s := by
  induction s with
  | nil => simp [isSubstring, List.isEmpty_iff]
  | cons c t ih =>
    simp [isSubstring, List.infix_cons_iff, List.isPrefixOf_iff_prefix, ih]

theorem isSubstring_eq_false_iff {p s : List Char} : isSubstring p s = false ↔ ¬ p <:+: s := by
  rw [← isSubstring_true_iff]
  cases isSubstring p s <;> simp

theorem replaceFirst_of_absent {pat rep s : List Char} (h : isSubstring pat s = false) :
    replaceFirst pat rep s = s := by
  induction s with
  | nil =>
    simp [isSubstring] at h
    simp [replaceFirst, h]
  | cons c t ih =>
    simp only [isSubstring, Bool.or_eq_false_iff] at h
    simp [replaceFirst, h.1, ih h.2]

theorem replaceFirst_spec {pat rep s : List Char} (h : isSubstring pat s = true) :
    ∃ a b, s = a ++ pat ++ b ∧ replaceFirst pat rep s = a ++ rep ++ b := by
  induction s with
  | nil =>
    simp [isSubstring, List.isEmpty_iff] at h
    exact ⟨[], [], by simp [h], by simp [replaceFirst, h]⟩
  | cons c t ih =>
    by_cases hp : pat.isPrefixOf (c :: t) = true
    · obtain ⟨b', hb⟩ := List.isPrefixOf_iff_prefix.mp hp
      refine ⟨[], b', by simp [← hb], ?_⟩
      simp only [replaceFirst, hp, if_true]
      rw [← hb, List.drop_left]
      simp
    · have hp' : pat.isPrefixOf (c :: t) = false := by
        cases hpp : pat.isPrefixOf (c :: t)
        · rfl
        · exact absurd hpp hp
      simp only [isSubstring, hp', Bool.false_or] at h
      obtain ⟨a, b, h1, h2⟩ := ih h
      exact ⟨c :: a, b, by simp [h1], by simp [replaceFirst, hp', h2]⟩

theorem isPrefixOf_append_eq {a b s : List Char} :
    (a ++ b).isPrefixOf s = (a.isPrefixOf s && b.isPrefixOf (s.drop a.length)) := by
  induction a generalizing s with
  | nil => simp [List.isPrefixOf]
  | cons x xs ih =>
    cases s with
    | nil => simp [List.isPrefixOf]
    | cons y ys => simp [List.isPrefixOf, ih, Bool.and_assoc]

theorem not_coprefix {w1 w2 ls : List Char} (h1 : w1.isPrefixOf ls = true)
    (hno : ¬ w1 <+: w2 ∧ ¬ w2 <+: w1) : w2.isPrefixOf ls = false := by
  cases h2 : w2.isPrefixOf ls
  · rfl
  · rcases List.prefix_or_prefix_of_prefix (List.isPrefixOf_iff_prefix.mp h1)
      (List.isPrefixOf_iff_prefix.mp h2) with h | h
    · exact absurd h hno.1
    · exact absurd h hno.2

theorem infix_append_cases {p a b : List Char} (h : p <:+: a ++ b) :
    p <:+: a ∨ p <:+: b ∨
      ∃ s t, s ++ t = p ∧ s ≠ [] ∧ t ≠ [] ∧ s <:+ a ∧ t <+: b := by
  obtain ⟨u, v, huv⟩ := h
  have huv' : u ++ (p ++ v) = a ++ b := by
    rw [← List.append_assoc]; exact huv
  rcases List.append_eq_append_iff.mp huv' with ⟨a', ha, hv⟩ | ⟨c', _, hb⟩
  · rcases List.append_eq_append_iff.mp hv with ⟨d, hd, _⟩ | ⟨e, he, hbe⟩
    · exact Or.inl ⟨u, d, by rw [ha, hd, List.append_assoc]⟩
    · rcases eq_or_ne a' [] with rfl | ha'
      · refine Or.inr (Or.inl ?_)
        simp at he
        exact ⟨[], v, by rw [hbe, he]; simp⟩
      · rcases eq_or_ne e [] with rfl | he'
        · refine Or.inl ?_
          have : p <:+ a := by
            rw [ha, he]
            simp
          exact this.isInfix
        · exact Or.inr (Or.inr ⟨a', e, he.symm, ha', he', by rw [ha]; simp, ⟨v, hbe.symm⟩⟩)
  · refine Or.inr (Or.inl ?_)
    exact ⟨c', v, by rw [hb, List.append_assoc]⟩

/-- If `p` occurs neither in `a`, nor in `b`, nor in the inserted block
`I`, cannot straddle the boundary from `a` into `I` (the head of `I` is
not a character of `p`), and cannot straddle out of `I` into `b` (no
non-trivial prefix of `p` is a suffix of `I`), then `p` does not occur
in `a ++ (I ++ b)`. -/
theorem infix_append_insert_absent {p a b I : List Char}
    (ha : ¬ p <:+: a) (hb : ¬ p <:+: b) (hI : ¬ p <:+: I)
    (hne : I ≠ [])
    (hhead : ∀ x, I.head? = some x → x ∉ p)
    (hstrad : ∀ k, 0 < k → k < p.length → ¬ (p.take k <:+ I)) :
    ¬ p <:+: a ++ (I ++ b) := by
  intro h
  rcases infix_append_cases h with h1 | h1 | ⟨s, t, hst, hs, ht, hsa, htIb⟩
  · exact ha h1
  · rcases infix_append_cases h1 with h2 | h2 | ⟨s, t, hst, hs, ht, hsI, htb⟩
    · exact hI h2
    · exact hb h2
    · have hs_take : s = p.take s.length := by
        rw [← hst, List.take_left]
      have hlen : s.length < p.length := by
        have : p.length = s.length + t.length := by rw [← hst, List.length_append]
        have htlen : 0 < t.length := List.length_pos.mpr ht
        omega
      have hspos : 0 < s.length := List.length_pos.mpr hs
      exact hstrad s.length hspos hlen (hs_take ▸ hsI)
  · rcases t with _ | ⟨x, t'⟩
    · exact ht rfl
    · have hxI : I.head? = some x := by
        obtain ⟨w, hw⟩ := htIb
        rcases I with _ | ⟨y, I'⟩
        · exact absurd rfl hne
        · simp at hw ⊢
          exact hw.1.symm
      have hxp : x ∈ p := by
        rw [← hst]
        exact List.mem_append_right _ (List.mem_cons_self x t')
      exact hhead x hxI hxp

/-! ## Scanner facts -/

theorem splitAtChar_eq {c : Char} {l a b : List Char}
    (h : splitAtChar c l = some (a, b)) : l = a ++ c :: b := by
  induction l generalizing a b with
  | nil => simp [splitAtChar] at h
  | cons x t ih =>
    rw [splitAtChar] at h
    by_cases hx : x = c
    · simp [hx] at h
      rw [hx, h.1, h.2]
      simp
    · simp only [hx, if_false] at h
      rcases hs : splitAtChar c t with _ | ⟨a', b'⟩
      · rw [hs] at h; simp at h
      · rw [hs] at h
        simp at h
        obtain ⟨rfl, rfl⟩ := h
        rw [ih hs]
        simp

theorem mdFull_length {alt src : List Char} :
    (mdFull alt src).length = alt.length + src.length + 5 := by
  simp [mdFull]
  omega

theorem matchMdAt_spec {s alt src : List Char} {len : Nat}
    (h : matchMdAt s = some (alt, src, len)) :
    len = alt.length + src.length + 5 ∧ s.take len = mdFull alt src := by
  match s with
  | [] => simp [matchMdAt] at h
  | [c1] => simp [matchMdAt] at h
  | c1 :: c2 :: r1 =>
    rw [matchMdAt] at h
    by_cases h12 : c1 = '!' && c2 = '['
    case neg => simp [h12] at h
    case pos =>
    simp only [h12, if_true] at h
    rcases hsp : splitAtChar ']' r1 with _ | ⟨alt', r2⟩
    · rw [hsp] at h; simp at h
    · rw [hsp] at h
      match r2 with
      | [] => simp at h
      | c3 :: r3 =>
        by_cases hc3 : c3 = '('
        case neg => simp [hc3] at h
        case pos =>
        simp only [hc3, if_true] at h
        rcases hsp2 : splitAtChar ')' r3 with _ | ⟨src', r4⟩
        · rw [hsp2] at h; simp at h
        · rw [hsp2] at h
          by_cases hemp : src'.isEmpty
          case pos => simp [hemp] at h
          case neg =>
          simp only [hemp, Bool.false_eq_true, if_false] at h
          simp only [Option.some.injEq, Prod.mk.injEq] at h
          obtain ⟨h1, h2, h3⟩ := h
          simp only [Bool.and_eq_true, decide_eq_true_eq] at h12
          obtain ⟨rfl, rfl⟩ := h12
          refine ⟨by rw [← h1, ← h2, ← h3], ?_⟩
          rw [← h1, ← h2, ← h3]
          have hr1 : r1 = alt' ++ ']' :: (c3 :: r3) := splitAtChar_eq hsp
          have hr3 : r3 = src' ++ ')' :: r4 := splitAtChar_eq hsp2
          have hs : '!' :: '[' :: r1 = mdFull alt' src' ++ r4 := by
            rw [hr1, hr3, hc3, mdFull]
            simp
          rw [hs, ← mdFull_length, List.take_left]

theorem mem_scanMdAux {ref : ImageRef} :
    ∀ {fuel : Nat} {s : List Char} {i : Nat}, ref ∈ scanMdAux fuel s i →
      ref.kind = RefKind.markdown ∧ ref.full = mdFull ref.alt ref.src := by
  intro fuel
  induction fuel with
  | zero => intro s i h; simp [scanMdAux] at h
  | succ n ih =>
    intro s i h
    match s with
    | [] => simp [scanMdAux] at h
    | c :: t =>
      rw [scanMdAux] at h
      rcases hm : matchMdAt (c :: t) with _ | ⟨alt, src, len⟩
      · rw [hm] at h
        exact ih h
      · rw [hm] at h
        rcases List.mem_cons.mp h with h1 | h2
        · subst h1
          exact ⟨rfl, (matchMdAt_spec hm).2⟩
        · exact ih h2

theorem mem_scanHtmlAux {ref : ImageRef} :
    ∀ {fuel : Nat} {s : List Char} {i : Nat}, ref ∈ scanHtmlAux fuel s i →
      ref.kind = RefKind.html := by
  intro fuel
  induction fuel with
  | zero => intro s i h; simp [scanHtmlAux] at h
  | succ n ih =>
    intro s i h
    match s with
    | [] => simp [scanHtmlAux] at h
    | c :: t =>
      rw [scanHtmlAux] at h
      rcases hm : matchHtmlAt (c :: t) with _ | ⟨v, len⟩
      · rw [hm] at h
        exact ih h
      · rw [hm] at h
        rcases List.mem_cons.mp h with h1 | h2
        · subst h1
          rfl
        · exact ih h2

/-! ## Reassembly loop facts -/

theorem applyLoop_noop {opts : Options} :
    ∀ {l : List ImageRef} {content : List Char} {offset : Int} {count : Nat},
      (∀ img ∈ l, rewriteOf opts img = img.full) →
      applyLoop opts l content offset count = { content := content, count := count } := by
  intro l
  induction l with
  | nil => intro content offset count _; rfl
  | cons img rest ih =>
    intro content offset count h
    have h1 : rewriteOf opts img = img.full := h img (List.mem_cons_self _ _)
    rw [applyLoop]
    simp only [h1, if_true]
    exact ih fun x hx => h x (List.mem_cons_of_mem _ hx)

theorem applyLoop_count {opts : Options} :
    ∀ {l : List ImageRef} {content : List Char} {offset : Int} {count : Nat},
      (applyLoop opts l content offset count).count =
        count + (l.filter (fun img => decide (rewriteOf opts img ≠ img.full))).length := by
  intro l
  induction l with
  | nil => intro content offset count; simp [applyLoop]
  | cons img rest ih =>
    intro content offset count
    rw [applyLoop]
    by_cases he : rewriteOf opts img = img.full
    · simp only [he, if_true]
      rw [ih]
      simp [List.filter, he]
    · simp only [he, if_false]
      rw [ih]
      simp only [List.filter, he, decide_not]
      simp [he]
      omega

/-! ## Asset classification facts -/

theorem assetImage_contains {src : List Char} (h : isAssetImage src = true) :
    isSubstring (str "assets/") src = true := by
  rw [isSubstring_true_iff]
  rw [isAssetImage] at h
  simp only [Bool.or_eq_true] at h
  rcases h with (h | h) | h
  · exact (show (str "assets/") <:+: (str "./assets/") by decide).trans
      (List.isPrefixOf_iff_prefix.mp h).isInfix
  · exact (show (str "assets/") <:+: (str "../assets/") by decide).trans
      (List.isPrefixOf_iff_prefix.mp h).isInfix
  · exact (show (str "assets/") <:+: (str "/assets/") by decide).trans
      (isSubstring_true_iff.mp h)

theorem picture_ne_mdFull {opts : Options} {alt src : List Char}
    (h : isAssetImage src = true) :
    optimizeMarkdownImage opts alt src ≠ mdFull alt src := by
  intro he
  have h1 : (optimizeMarkdownImage opts alt src).head? = some '<' := by
    rw [optimizeMarkdownImage, h]
    rfl
  have h2 : (mdFull alt src).head? = some '!' := rfl
  rw [he, h2] at h1
  simp at h1

/-- A scanned markdown reference whose path is not classified as an
asset image is rewritten to its own original matched text. -/
theorem rewriteOf_eq_full_of_nonasset {opts : Options} {content : List Char}
    {img : ImageRef} (hmem : img ∈ analyzeImages content)
    (hkind : img.kind = RefKind.markdown) (hasset : isAssetImage img.src = false) :
    rewriteOf opts img = img.full := by
  have hfull : img.full = mdFull img.alt img.src := by
    rcases List.mem_append.mp hmem with hmd | hhtml
    · exact (mem_scanMdAux hmd).2
    · rw [mem_scanHtmlAux hhtml] at hkind
      cases hkind
  rw [rewriteOf, hkind]
  rw [optimizeMarkdownImage, hasset, hfull]
  rfl

/-! ## Claim C3: non-asset markdown references pass through unchanged -/

/-- C3: for every scanned markdown-syntax reference whose source path
does not contain `assets/`, the rewrite equals the original matched text
`![alt](path)`, for every configuration. -/
theorem C3_nonasset_passthrough :
    ∀ (opts : Options) (content : List Char) (img : ImageRef),
      img ∈ analyzeImages content → img.kind = RefKind.markdown →
      isSubstring (str "assets/") img.src = false →
      rewriteOf opts img = img.full := by
  intro opts content img hmem hkind hna
  have hasset : isAssetImage img.src = false := by
    cases h : isAssetImage img.src
    · rfl
    · rw [assetImage_contains h] at hna
      cases hna
  exact rewriteOf_eq_full_of_nonasset hmem hkind hasset

/-- Witness for C3 at the concrete document `![a](pic.png)`. -/
theorem C3_nonasset_passthrough_witness :
    (⟨RefKind.markdown, str "![a](pic.png)", str "a", str "pic.png", 0⟩ : ImageRef) ∈
        analyzeImages (str "![a](pic.png)") ∧
      rewriteOf defaultOptions
        ⟨RefKind.markdown, str "![a](pic.png)", str "a", str "pic.png", 0⟩ =
        str "![a](pic.png)" :=
  ⟨by decide, C3_nonasset_passthrough defaultOptions (str "![a](pic.png)") _
    (by decide) (by decide) (by decide)⟩

/-! ## Claim C4: the asset classification is exactly the three-way test -/

/-- C4: a markdown-syntax reference is rewritten (its rewrite differs
from `![alt](path)`) exactly when the path starts with `./assets/`,
starts with `../assets/`, or contains `/assets/`; paths satisfying none
of the three are left unchanged, for every configuration. -/
theorem C4_asset_classification :
    ∀ (opts : Options) (alt src : List Char),
      decide (optimizeMarkdownImage opts alt src = mdFull alt src) =
        !((str "./assets/").isPrefixOf src || (str "../assets/").isPrefixOf src ||
          isSubstring (str "/assets/") src) := by
  intro opts alt src
  have hdef : ((str "./assets/").isPrefixOf src || (str "../assets/").isPrefixOf src ||
      isSubstring (str "/assets/") src) = isAssetImage src := rfl
  rw [hdef]
  cases h : isAssetImage src
  · rw [optimizeMarkdownImage, h]
    simp
  · simp [@picture_ne_mdFull opts alt src h]

/-! ## Claim C7: round-trip identity when nothing changes -/

/-- C7: if every scanned reference of a document is a markdown-syntax
reference that is not an asset image (in particular if the document has
no references at all), the scan-rewrite-reassemble pipeline returns the
document unchanged (and counts zero optimizations). -/
theorem C7_roundtrip_identity :
    ∀ (opts : Options) (content : List Char),
      (∀ img ∈ analyzeImages content,
        img.kind = RefKind.markdown ∧ isAssetImage img.src = false) →
      optimizeImageReferences opts content = { content := content, count := 0 } := by
  intro opts content h
  rw [optimizeImageReferences]
  apply applyLoop_noop
  intro img hmem
  exact rewriteOf_eq_full_of_nonasset hmem (h img hmem).1 (h img hmem).2

/-- Witness for C7 at a document with one non-asset markdown reference
and at a document with no references. -/
theorem C7_roundtrip_identity_witness :
    optimizeImageReferences defaultOptions (str "see ![a](http://x/y.png) ok") =
        { content := str "see ![a](http://x/y.png) ok", count := 0 } ∧
      optimizeImageReferences defaultOptions (str "no pics here") =
        { content := str "no pics here", count := 0 } :=
  ⟨C7_roundtrip_identity defaultOptions (str "see ![a](http://x/y.png) ok") (by decide),
   C7_roundtrip_identity defaultOptions (str "no pics here") (by decide)⟩

/-! ## Claim C8: the optimized count -/

/-- C8: the count returned by the pipeline equals the number of scanned
references whose rewrite differs from their original matched text; in
particular a document with three markdown references of which exactly
one is under `assets/` counts 1, and a document without references
counts 0. -/
theorem C8_count_correctness :
    (∀ (opts : Options) (content : List Char),
        (optimizeImageReferences opts content).count =
          ((analyzeImages content).filter
            (fun img => decide (rewriteOf opts img ≠ img.full))).length) ∧
      (optimizeImageReferences defaultOptions
        (str "![a](./assets/x.png) and ![b](images/h.png) and ![c](http://e/i.jpg)")).count = 1 ∧
      (optimizeImageReferences defaultOptions (str "no pics here")).count = 0 := by
  refine ⟨?_, by decide, by decide⟩
  intro opts content
  rw [optimizeImageReferences, applyLoop_count]
  simp

/-! ## Claim C9: fully optimized HTML tags are returned unchanged -/

/-- C9: an HTML tag that contains `loading=` and also contains
`<picture>` or `srcset` is returned unchanged by the HTML rewrite. -/
theorem C9_html_already_optimized :
    ∀ (opts : Options) (tag src : List Char),
      isSubstring (str "loading=") tag = true →
      (isSubstring (str "<picture>") tag = true ∨ isSubstring (str "srcset") tag = true) →
      optimizeHtmlImage opts tag src = tag := by
  intro opts tag src hlazy hwebp
  rw [optimizeHtmlImage]
  have hw : (isSubstring (str "<picture>") tag || isSubstring (str "srcset") tag) = true := by
    rcases hwebp with h | h <;> simp [h]
  simp [hlazy, hw]

/-- Witness for C9 at the tag of the spec's example. -/
theorem C9_html_already_optimized_witness :
    optimizeHtmlImage defaultOptions
        (str "<img src=\"x.png\" loading=\"lazy\" srcset=\"x.webp\">") (str "x.png") =
      str "<img src=\"x.png\" loading=\"lazy\" srcset=\"x.webp\">" :=
  C9_html_already_optimized defaultOptions
    (str "<img src=\"x.png\" loading=\"lazy\" srcset=\"x.webp\">") (str "x.png")
    (by decide) (Or.inr (by decide))

/-! ## Claim C10: the lazy-loading test is plain substring containment -/

/-- C10: whenever the character sequence `loading=` occurs anywhere in
an HTML tag — in any attribute name or value — the rewrite treats the
tag as already lazy-loaded: the result is either the tag itself or the
tag with only the responsive style inserted, never a loading insertion. -/
theorem C10_loading_substring_test :
    ∀ (opts : Options) (tag src : List Char),
      isSubstring (str "loading=") tag = true →
      optimizeHtmlImage opts tag src = tag ∨
        optimizeHtmlImage opts tag src = replaceFirst (str "<img") imgStyleIns tag := by
  intro opts tag src hlazy
  rw [optimizeHtmlImage]
  simp only [hlazy]
  by_cases hw : (isSubstring (str "<picture>") tag || isSubstring (str "srcset") tag) = true
  · simp [hw]
  · simp only [Bool.not_eq_true] at hw
    simp only [hw, Bool.and_false, Bool.false_eq_true, if_false]
    simp only [Bool.not_true, Bool.false_and, Bool.false_eq_true, if_false]
    by_cases hstyle : (!isSubstring (str "style=") tag && !isSubstring (str "max-width") tag) = true
    · simp [hstyle]
    · simp only [Bool.not_eq_true] at hstyle
      simp [hstyle]

/-- Witness for C10: `data-loading="x"` counts as `loading=`, so the tag
only gains the style insertion, and in particular no `loading="lazy"`. -/
theorem C10_loading_substring_test_witness :
    (optimizeHtmlImage defaultOptions (str "<img data-loading=\"x\" src=\"a.png\">")
          (str "a.png") = str "<img data-loading=\"x\" src=\"a.png\">" ∨
        optimizeHtmlImage defaultOptions (str "<img data-loading=\"x\" src=\"a.png\">")
          (str "a.png") =
          replaceFirst (str "<img") imgStyleIns (str "<img data-loading=\"x\" src=\"a.png\">")) ∧
      isSubstring (str "loading=\"lazy\"")
        (optimizeHtmlImage defaultOptions (str "<img data-loading=\"x\" src=\"a.png\">")
          (str "a.png")) = false :=
  ⟨C10_loading_substring_test defaultOptions (str "<img data-loading=\"x\" src=\"a.png\">")
    (str "a.png") (by decide), by decide⟩

/-! ## Claim C1: the asset WebP rewrite shape -/

/-- Counterexample to C1: the rewrite of
`![A screenshot of the login page](./assets/login.png)` does **not**
contain `alt="Login page"` — the redundant-words pattern is anchored at
the start of the alt text, and this alt text begins with `A `, not with
`screenshot`, so nothing is stripped. -/
theorem C1_counterexample :
    isSubstring (str "alt=\"Login page\"")
      (optimizeMarkdownImage defaultOptions
        (str "A screenshot of the login page") (str "./assets/login.png")) = false := by
  decide

/-- C1 as amended: the rewrite of
`![A screenshot of the login page](./assets/login.png)` contains
`srcset="./assets/login.webp"`, `type="image/webp"`,
`src="./assets/login.png"`, `loading="lazy"`, and the *unchanged* alt
text `alt="A screenshot of the login page"` (already capitalized; the
prefix is not stripped because the anchored pattern requires the alt
text to begin with image/picture/photo/screenshot). -/
theorem C1_webp_rewrite_shape :
    isSubstring (str "srcset=\"./assets/login.webp\"")
        (optimizeMarkdownImage defaultOptions
          (str "A screenshot of the login page") (str "./assets/login.png")) = true ∧
      isSubstring (str "type=\"image/webp\"")
        (optimizeMarkdownImage defaultOptions
          (str "A screenshot of the login page") (str "./assets/login.png")) = true ∧
      isSubstring (str "src=\"./assets/login.png\"")
        (optimizeMarkdownImage defaultOptions
          (str "A screenshot of the login page") (str "./assets/login.png")) = true ∧
      isSubstring (str "alt=\"A screenshot of the login page\"")
        (optimizeMarkdownImage defaultOptions
          (str "A screenshot of the login page") (str "./assets/login.png")) = true ∧
      isSubstring (str "loading=\"lazy\"")
        (optimizeMarkdownImage defaultOptions
          (str "A screenshot of the login page") (str "./assets/login.png")) = true := by
  refine ⟨by decide, by decide, by decide, by decide, by decide⟩

/-! ## Claim C6: empty alt text and empty path in the markdown scan -/

/-- Counterexample to C6: the markdown pattern requires a non-empty
parenthesized path span (`[^)]+`), so `![alt]()` is not detected at
all. -/
theorem C6_counterexample :
    analyzeImages (str "![alt]()") = [] := by
  decide

/-- C6 as amended: the scanner accepts an empty alt text span and
preserves it, but it requires a non-empty path span: `![](x)` is
detected (with empty alt text), while `![alt]()` is not detected. -/
theorem C6_empty_spans :
    analyzeImages (str "![](x)") =
        [⟨RefKind.markdown, str "![](x)", [], str "x", 0⟩] ∧
      analyzeImages (str "![alt]()") = [] := by
  refine ⟨by decide, by decide⟩

/-! ## Claim C5: the `addLazyLoading` option -/

/-- Configuration with lazy loading disabled and everything else at its
default. -/
def noLazyOptions : Options :=
  { addLazyLoading := false, useWebP := true, addDimensions := true,
    optimizeAltText := true, backupFiles := true }

/-- Counterexample to C5: with `addLazyLoading := false`, the markdown
asset rewrite still emits `loading="lazy"` (the `<picture>` template
hardcodes it; the option only gates the HTML-tag insertion). -/
theorem C5_counterexample :
    isSubstring (str "loading=") (str "![x](./assets/a.png)") = false ∧
      isSubstring (str "loading=\"lazy\"")
        (optimizeMarkdownImage noLazyOptions (str "x") (str "./assets/a.png")) = true :=
  ⟨by decide, by decide⟩

/-- C5 as amended: the guarantee holds for HTML-syntax references only —
with `addLazyLoading = false`, the HTML rewrite never introduces a
`loading=` attribute into a tag that has none.  (Markdown asset rewrites
emit `loading="lazy"` unconditionally.) -/
theorem C5_no_lazy_insertion_html :
    ∀ (opts : Options) (tag src : List Char),
      opts.addLazyLoading = false →
      isSubstring (str "loading=") tag = false →
      isSubstring (str "loading=") (optimizeHtmlImage opts tag src) = false := by
  intro opts tag src hopt htag
  have hni : ¬ (str "loading=") <:+: tag := isSubstring_eq_false_iff.mp htag
  rw [optimizeHtmlImage]
  simp only [htag, hopt, Bool.false_and, Bool.false_eq_true, if_false,
    Bool.not_false, Bool.and_false]
  by_cases hsty : (!isSubstring (str "style=") tag && !isSubstring (str "max-width") tag) = true
  · simp only [hsty, if_true]
    by_cases himg : isSubstring (str "<img") tag = true
    · obtain ⟨a, b, hab, hres⟩ := @replaceFirst_spec (str "<img") imgStyleIns tag himg
      rw [hres, isSubstring_eq_false_iff, List.append_assoc]
      apply infix_append_insert_absent
      · intro h
        apply hni
        refine h.trans ?_
        rw [hab, List.append_assoc]
        exact (List.prefix_append a _).isInfix
      · intro h
        apply hni
        refine h.trans ?_
        rw [hab]
        exact (List.suffix_append _ b).isInfix
      · decide
      · decide
      · intro x hx hmem
        have hx' : x = '<' := by
          have : (some '<' : Option Char) = some x := hx ▸ rfl
          simpa using this.symm
        rw [hx'] at hmem
        revert hmem
        decide
      · intro k h1 h2 hsuf
        have h8 : (str "loading=").length = 8 := rfl
        rw [h8] at h2
        interval_cases k <;> revert hsuf <;> decide
    · have himg' : isSubstring (str "<img") tag = false := by
        cases h : isSubstring (str "<img") tag
        · rfl
        · exact absurd h himg
      rw [replaceFirst_of_absent himg']
      exact htag
  · simp only [hsty, if_false]
    exact htag

/-- Witness for the amended C5 at `<img src="a.png">`. -/
theorem C5_no_lazy_insertion_html_witness :
    noLazyOptions.addLazyLoading = false ∧
      isSubstring (str "loading=") (str "<img src=\"a.png\">") = false ∧
      isSubstring (str "loading=")
        (optimizeHtmlImage noLazyOptions (str "<img src=\"a.png\">") (str "a.png")) = false :=
  ⟨by decide, by decide,
   C5_no_lazy_insertion_html noLazyOptions (str "<img src=\"a.png\">") (str "a.png")
     (by decide) (by decide)⟩

/-! ## Claim C2: the alt-text optimization steps -/

/-- The eight literal redundant-words prefixes named by the spec's
alt-text rule, in the alternation order of the pattern
`(image|picture|photo|screenshot) (of|showing) `. -/
def specAltPrefixes : List (List Char) :=
  [str "image of ", str "image showing ", str "picture of ", str "picture showing ",
   str "photo of ", str "photo showing ", str "screenshot of ", str "screenshot showing "]

/-- Head-stripping step as the spec words it: remove the first of the
eight literal prefixes that case-insensitively begins the alt text. -/
def specStripHead (s : List Char) : List Char :=
  match specAltPrefixes.find? (fun p => p.isPrefixOf (lowerList s)) with
  | some p => s.drop p.length
  | none => s

/-- Spec-side case-insensitive ends-with test, stated via `drop`. -/
def specEndsWith (e s : List Char) : Bool :=
  decide (e.length ≤ s.length) && decide ((lowerList s).drop (s.length - e.length) = e)

/-- Extension-stripping step as the spec words it: remove a trailing
`.png`, `.jpg`, `.jpeg` or `.gif`, case-insensitively. -/
def specStripExt (s : List Char) : List Char :=
  if specEndsWith (str ".png") s then s.take (s.length - (str ".png").length)
  else if specEndsWith (str ".jpg") s then s.take (s.length - (str ".jpg").length)
  else if specEndsWith (str ".jpeg") s then s.take (s.length - (str ".jpeg").length)
  else if specEndsWith (str ".gif") s then s.take (s.length - (str ".gif").length)
  else s

/-- Drop the longest trailing run of `p`-characters, recursively. -/
def dropTrailing (p : Char → Bool) : List Char → List Char
  | [] => []
  | c :: t =>
    let r := dropTrailing p t
    if r.isEmpty then (if p c then [] else [c]) else c :: r

/-- Trim step as the spec words it: drop surrounding whitespace. -/
def specTrim (s : List Char) : List Char :=
  dropTrailing jsWs (s.dropWhile jsWs)

/-- The spec's four alt-text steps, in order: strip the redundant-words
prefix, strip a trailing extension, trim, capitalize the first
character of a non-empty result. -/
def altSpecSteps (s : List Char) : List Char :=
  capitalizeStep (specTrim (specStripExt (specStripHead s)))

theorem dropTrailing_eq (p : Char → Bool) (l : List Char) :
    dropTrailing p l = (l.reverse.dropWhile p).reverse := by
  induction l with
  | nil => rfl
  | cons c t ih =>
    simp only [dropTrailing]
    rw [ih, List.reverse_cons, List.dropWhile_append]
    by_cases h : (t.reverse.dropWhile p).isEmpty
    · have h' : t.reverse.dropWhile p = [] := List.isEmpty_iff.mp h
      simp only [h, if_true, h']
      simp only [List.reverse_nil, List.isEmpty_nil, if_true, List.dropWhile]
      by_cases hc : p c = true
      · simp [hc]
      · have hc' : p c = false := by
          cases hcc : p c
          · rfl
          · exact absurd hcc hc
        simp [hc']
    · have h2 : ((t.reverse.dropWhile p).reverse).isEmpty = false := by
        cases hr : t.reverse.dropWhile p
        · rw [hr] at h; exact absurd rfl h
        · simp [hr]
      simp only [h, if_false, h2, Bool.false_eq_true]
      rw [List.reverse_append]
      simp

theorem trimStr_eq_specTrim (s : List Char) : trimStr s = specTrim s := by
  rw [trimStr, specTrim, dropTrailing_eq]

theorem isSuffixOf_eq_specEndsWith (e s : List Char) :
    e.isSuffixOf (lowerList s) = specEndsWith e s := by
  have hlen : (lowerList s).length = s.length := by simp [lowerList]
  rw [Bool.eq_iff_iff, specEndsWith]
  simp only [Bool.and_eq_true, decide_eq_true_eq]
  constructor
  · intro h
    have hsuf := List.isSuffixOf_iff_suffix.mp h
    refine ⟨by have := hsuf.length_le; omega, ?_⟩
    have := List.suffix_iff_eq_drop.mp hsuf
    rw [hlen] at this
    exact this.symm
  · rintro ⟨_, h2⟩
    apply List.isSuffixOf_iff_suffix.mpr
    rw [List.suffix_iff_eq_drop, hlen]
    exact h2.symm

theorem stripAltExt_eq_specStripExt (s : List Char) :
    stripAltExt s = specStripExt s := by
  rw [stripAltExt, specStripExt]
  simp only [matchExtSuffix, isSuffixOf_eq_specEndsWith]
  by_cases h1 : specEndsWith (str ".png") s = true
  · simp [h1]
  · simp only [eq_false_of_ne_true h1, Bool.false_eq_true, if_false]
    by_cases h2 : specEndsWith (str ".jpg") s = true
    · simp [h2]
    · simp only [eq_false_of_ne_true h2, Bool.false_eq_true, if_false]
      by_cases h3 : specEndsWith (str ".jpeg") s = true
      · simp [h3]
      · simp only [eq_false_of_ne_true h3, Bool.false_eq_true, if_false]
        by_cases h4 : specEndsWith (str ".gif") s = true
        · simp [h4]
        · simp [eq_false_of_ne_true h4]

theorem find_two_none {s ls c1 c2 : List Char}
    (h1 : c1.isPrefixOf ls = false) (h2 : c2.isPrefixOf ls = false) :
    (match List.find? (fun p => p.isPrefixOf ls) [c1, c2] with
      | some p => s.drop p.length
      | none => s) = s := by
  rw [List.find?_cons_of_neg _ (by simp only [h1]; simp),
    List.find?_cons_of_neg _ (by simp only [h2]; simp)]
  simp

theorem per_word {w s ls : List Char} (hw : w.isPrefixOf ls = true) :
    (match comboTail ls w.length with
      | some n => s.drop n
      | none => s) =
    (match List.find? (fun p => p.isPrefixOf ls)
        [w ++ (' ' :: (str "of" ++ [' '])), w ++ (' ' :: (str "showing" ++ [' ']))] with
      | some p => s.drop p.length
      | none => s) := by
  have K : ∀ conj : List Char, (w ++ (' ' :: (conj ++ [' ']))).isPrefixOf ls
      = (' ' :: (conj ++ [' '])).isPrefixOf (ls.drop w.length) := fun conj => by
    rw [isPrefixOf_append_eq, hw, Bool.true_and]
  rw [comboTail]
  cases hd : ls.drop w.length with
  | nil =>
    have k1 : (w ++ (' ' :: (str "of" ++ [' ']))).isPrefixOf ls = false := by
      rw [K, hd]; simp [List.isPrefixOf]
    have k2 : (w ++ (' ' :: (str "showing" ++ [' ']))).isPrefixOf ls = false := by
      rw [K, hd]; simp [List.isPrefixOf]
    rw [find_two_none k1 k2]
  | cons y r2 =>
    by_cases hy : y = ' '
    case neg =>
      have hy' : (' ' == y) = false := by
        simp only [beq_eq_false_iff_ne]
        exact fun h => hy h.symm
      have k1 : (w ++ (' ' :: (str "of" ++ [' ']))).isPrefixOf ls = false := by
        rw [K, hd]; simp [List.isPrefixOf, hy']
      have k2 : (w ++ (' ' :: (str "showing" ++ [' ']))).isPrefixOf ls = false := by
        rw [K, hd]; simp [List.isPrefixOf, hy']
      rw [find_two_none k1 k2]
      simp [hy]
    case pos =>
      subst hy
      have K2 : ∀ conj : List Char, (w ++ (' ' :: (conj ++ [' ']))).isPrefixOf ls
          = (conj.isPrefixOf r2 && [' '].isPrefixOf (r2.drop conj.length)) := fun conj => by
        rw [K, hd]
        simp only [List.isPrefixOf, beq_self_eq_true, Bool.true_and, isPrefixOf_append_eq]
      simp only [reduceIte]
      by_cases hof : (str "of").isPrefixOf r2 = true
      · have hsh : (str "showing").isPrefixOf r2 = false := not_coprefix hof (by decide)
        have k2 : (w ++ (' ' :: (str "showing" ++ [' ']))).isPrefixOf ls = false := by
          rw [K2, hsh, Bool.false_and]
        rw [matchAlt]
        simp only [hof, if_true]
        cases he : r2.drop (str "of").length with
        | nil =>
          have k1 : (w ++ (' ' :: (str "of" ++ [' ']))).isPrefixOf ls = false := by
            rw [K2, hof, Bool.true_and, he]
            simp [List.isPrefixOf]
          rw [find_two_none k1 k2]
        | cons z r3 =>
          by_cases hz : z = ' '
          case pos =>
            subst hz
            have k1 : (w ++ (' ' :: (str "of" ++ [' ']))).isPrefixOf ls = true := by
              rw [K2, hof, Bool.true_and, he]
              simp [List.isPrefixOf]
            rw [List.find?_cons_of_pos _ (by simp [k1])]
            have hlen : (w ++ (' ' :: (str "of" ++ [' ']))).length
                = w.length + 1 + (str "of").length + 1 := by
              simp only [List.length_append, List.length_cons, List.length_nil]
              omega
            show List.drop (w.length + 1 + (str "of").length + 1) s
                = List.drop ((w ++ (' ' :: (str "of" ++ [' ']))).length) s
            rw [hlen]
          case neg =>
            have hz' : (' ' == z) = false := by
              simp only [beq_eq_false_iff_ne]
              exact fun h => hz h.symm
            have k1 : (w ++ (' ' :: (str "of" ++ [' ']))).isPrefixOf ls = false := by
              rw [K2, hof, Bool.true_and, he]
              simp [List.isPrefixOf, hz']
            rw [find_two_none k1 k2]
            simp [hz]
      · have hof' : (str "of").isPrefixOf r2 = false := eq_false_of_ne_true hof
        have k1 : (w ++ (' ' :: (str "of" ++ [' ']))).isPrefixOf ls = false := by
          rw [K2, hof', Bool.false_and]
        rw [matchAlt]
        simp only [hof', Bool.false_eq_true, if_false, matchAlt]
        by_cases hsh : (str "showing").isPrefixOf r2 = true
        · simp only [hsh, if_true]
          cases he : r2.drop (str "showing").length with
          | nil =>
            have k2 : (w ++ (' ' :: (str "showing" ++ [' ']))).isPrefixOf ls = false := by
              rw [K2, hsh, Bool.true_and, he]
              simp [List.isPrefixOf]
            rw [find_two_none k1 k2]
          | cons z r3 =>
            by_cases hz : z = ' '
            case pos =>
              subst hz
              have k2 : (w ++ (' ' :: (str "showing" ++ [' ']))).isPrefixOf ls = true := by
                rw [K2, hsh, Bool.true_and, he]
                simp [List.isPrefixOf]
              rw [List.find?_cons_of_neg _ (by simp [k1]),
                List.find?_cons_of_pos _ (by simp [k2])]
              have hlen : (w ++ (' ' :: (str "showing" ++ [' ']))).length
                  = w.length + 1 + (str "showing").length + 1 := by
                simp only [List.length_append, List.length_cons, List.length_nil]
                omega
              show List.drop (w.length + 1 + (str "showing").length + 1) s
                  = List.drop ((w ++ (' ' :: (str "showing" ++ [' ']))).length) s
              rw [hlen]
            case neg =>
              have hz' : (' ' == z) = false := by
                simp only [beq_eq_false_iff_ne]
                exact fun h => hz h.symm
              have k2 : (w ++ (' ' :: (str "showing" ++ [' ']))).isPrefixOf ls = false := by
                rw [K2, hsh, Bool.true_and, he]
                simp [List.isPrefixOf, hz']
              rw [find_two_none k1 k2]
              simp [hz]
        · have hsh' : (str "showing").isPrefixOf r2 = false := eq_false_of_ne_true hsh
          have k2 : (w ++ (' ' :: (str "showing" ++ [' ']))).isPrefixOf ls = false := by
            rw [K2, hsh', Bool.false_and]
          rw [find_two_none k1 k2]
          simp [hsh']

theorem word_combo_false {w rest ls : List Char} (hw : w.isPrefixOf ls = false) :
    (w ++ rest).isPrefixOf ls = false := by
  rw [isPrefixOf_append_eq, hw, Bool.false_and]

theorem stripAltHead_eq_specStripHead (s : List Char) :
    stripAltHead s = specStripHead s := by
  rw [stripAltHead, specStripHead, reHeadLen, specAltPrefixes]
  set ls := lowerList s with hls
  by_cases h1 : (str "image").isPrefixOf ls = true
  · rw [matchAlt]
    simp only [h1, if_true]
    have hp : (str "picture").isPrefixOf ls = false := not_coprefix h1 (by decide)
    have hh : (str "photo").isPrefixOf ls = false := not_coprefix h1 (by decide)
    have hsc : (str "screenshot").isPrefixOf ls = false := not_coprefix h1 (by decide)
    have hsplit : ([str "image of ", str "image showing ", str "picture of ",
        str "picture showing ", str "photo of ", str "photo showing ",
        str "screenshot of ", str "screenshot showing "] : List (List Char))
        = [str "image of ", str "image showing "] ++
          [str "picture of ", str "picture showing ", str "photo of ",
           str "photo showing ", str "screenshot of ", str "screenshot showing "] := rfl
    rw [hsplit, List.find?_append]
    have hrest : List.find? (fun p => p.isPrefixOf ls)
        [str "picture of ", str "picture showing ", str "photo of ",
         str "photo showing ", str "screenshot of ", str "screenshot showing "] = none := by
      apply List.find?_eq_none.mpr
      intro x hx
      simp only [List.mem_cons, List.not_mem_nil, or_false] at hx
      rcases hx with rfl | rfl | rfl | rfl | rfl | rfl
      · rw [show (str "picture of ") = (str "picture") ++ (str " of ") from rfl]
        simp [word_combo_false hp]
      · rw [show (str "picture showing ") = (str "picture") ++ (str " showing ") from rfl]
        simp [word_combo_false hp]
      · rw [show (str "photo of ") = (str "photo") ++ (str " of ") from rfl]
        simp [word_combo_false hh]
      · rw [show (str "photo showing ") = (str "photo") ++ (str " showing ") from rfl]
        simp [word_combo_false hh]
      · rw [show (str "screenshot of ") = (str "screenshot") ++ (str " of ") from rfl]
        simp [word_combo_false hsc]
      · rw [show (str "screenshot showing ") = (str "screenshot") ++ (str " showing ") from rfl]
        simp [word_combo_false hsc]
    rw [hrest, Option.or_none]
    rw [show (str "image of ") = (str "image") ++ (' ' :: (str "of" ++ [' '])) from rfl,
      show (str "image showing ") = (str "image") ++ (' ' :: (str "showing" ++ [' '])) from rfl]
    exact per_word h1
  · have h1' : (str "image").isPrefixOf ls = false := eq_false_of_ne_true h1
    by_cases h2 : (str "picture").isPrefixOf ls = true
    · rw [matchAlt]
      simp only [h1', Bool.false_eq_true, if_false, matchAlt, h2, if_true]
      have hh : (str "photo").isPrefixOf ls = false := not_coprefix h2 (by decide)
      have hsc : (str "screenshot").isPrefixOf ls = false := not_coprefix h2 (by decide)
      have hc1 : (str "image of ").isPrefixOf ls = false := by
        rw [show (str "image of ") = (str "image") ++ (str " of ") from rfl]
        exact word_combo_false h1'
      have hc2 : (str "image showing ").isPrefixOf ls = false := by
        rw [show (str "image showing ") = (str "image") ++ (str " showing ") from rfl]
        exact word_combo_false h1'
      rw [List.find?_cons_of_neg _ (by simp [hc1]), List.find?_cons_of_neg _ (by simp [hc2])]
      have hsplit : ([str "picture of ", str "picture showing ", str "photo of ",
          str "photo showing ", str "screenshot of ", str "screenshot showing "] : List (List Char))
          = [str "picture of ", str "picture showing "] ++
            [str "photo of ", str "photo showing ",
             str "screenshot of ", str "screenshot showing "] := rfl
      rw [hsplit, List.find?_append]
      have hrest : List.find? (fun p => p.isPrefixOf ls)
          [str "photo of ", str "photo showing ",
           str "screenshot of ", str "screenshot showing "] = none := by
        apply List.find?_eq_none.mpr
        intro x hx
        simp only [List.mem_cons, List.not_mem_nil, or_false] at hx
        rcases hx with rfl | rfl | rfl | rfl
        · rw [show (str "photo of ") = (str "photo") ++ (str " of ") from rfl]
          simp [word_combo_false hh]
        · rw [show (str "photo showing ") = (str "photo") ++ (str " showing ") from rfl]
          simp [word_combo_false hh]
        · rw [show (str "screenshot of ") = (str "screenshot") ++ (str " of ") from rfl]
          simp [word_combo_false hsc]
        · rw [show (str "screenshot showing ") = (str "screenshot") ++ (str " showing ") from rfl]
          simp [word_combo_false hsc]
      rw [hrest, Option.or_none]
      rw [show (str "picture of ") = (str "picture") ++ (' ' :: (str "of" ++ [' '])) from rfl,
        show (str "picture showing ") = (str "picture") ++ (' ' :: (str "showing" ++ [' '])) from rfl]
      exact per_word h2
    · have h2' : (str "picture").isPrefixOf ls = false := eq_false_of_ne_true h2
      by_cases h3 : (str "photo").isPrefixOf ls = true
      · rw [matchAlt]
        simp only [h1', h2', Bool.false_eq_true, if_false, matchAlt, h3, if_true]
        have hsc : (str "screenshot").isPrefixOf ls = false := not_coprefix h3 (by decide)
        have hc1 : (str "image of ").isPrefixOf ls = false := by
          rw [show (str "image of ") = (str "image") ++ (str " of ") from rfl]
          exact word_combo_false h1'
        have hc2 : (str "image showing ").isPrefixOf ls = false := by
          rw [show (str "image showing ") = (str "image") ++ (str " showing ") from rfl]
          exact word_combo_false h1'
        have hc3 : (str "picture of ").isPrefixOf ls = false := by
          rw [show (str "picture of ") = (str "picture") ++ (str " of ") from rfl]
          exact word_combo_false h2'
        have hc4 : (str "picture showing ").isPrefixOf ls = false := by
          rw [show (str "picture showing ") = (str "picture") ++ (str " showing ") from rfl]
          exact word_combo_false h2'
        rw [List.find?_cons_of_neg _ (by simp [hc1]), List.find?_cons_of_neg _ (by simp [hc2]),
          List.find?_cons_of_neg _ (by simp [hc3]), List.find?_cons_of_neg _ (by simp [hc4])]
        have hsplit : ([str "photo of ", str "photo showing ",
            str "screenshot of ", str "screenshot showing "] : List (List Char))
            = [str "photo of ", str "photo showing "] ++
              [str "screenshot of ", str "screenshot showing "] := rfl
        rw [hsplit, List.find?_append]
        have hrest : List.find? (fun p => p.isPrefixOf ls)
            [str "screenshot of ", str "screenshot showing "] = none := by
          apply List.find?_eq_none.mpr
          intro x hx
          simp only [List.mem_cons, List.not_mem_nil, or_false] at hx
          rcases hx with rfl | rfl
          · rw [show (str "screenshot of ") = (str "screenshot") ++ (str " of ") from rfl]
            simp [word_combo_false hsc]
          · rw [show (str "screenshot showing ")
                = (str "screenshot") ++ (str " showing ") from rfl]
            simp [word_combo_false hsc]
        rw [hrest, Option.or_none]
        rw [show (str "photo of ") = (str "photo") ++ (' ' :: (str "of" ++ [' '])) from rfl,
          show (str "photo showing ")
            = (str "photo") ++ (' ' :: (str "showing" ++ [' '])) from rfl]
        exact per_word h3
      · have h3' : (str "photo").isPrefixOf ls = false := eq_false_of_ne_true h3
        by_cases h4 : (str "screenshot").isPrefixOf ls = true
        · rw [matchAlt]
          simp only [h1', h2', h3', Bool.false_eq_true, if_false, matchAlt, h4, if_true]
          have hc1 : (str "image of ").isPrefixOf ls = false := by
            rw [show (str "image of ") = (str "image") ++ (str " of ") from rfl]
            exact word_combo_false h1'
          have hc2 : (str "image showing ").isPrefixOf ls = false := by
            rw [show (str "image showing ") = (str "image") ++ (str " showing ") from rfl]
            exact word_combo_false h1'
          have hc3 : (str "picture of ").isPrefixOf ls = false := by
            rw [show (str "picture of ") = (str "picture") ++ (str " of ") from rfl]
            exact word_combo_false h2'
          have hc4 : (str "picture showing ").isPrefixOf ls = false := by
            rw [show (str "picture showing ") = (str "picture") ++ (str " showing ") from rfl]
            exact word_combo_false h2'
          have hc5 : (str "photo of ").isPrefixOf ls = false := by
            rw [show (str "photo of ") = (str "photo") ++ (str " of ") from rfl]
            exact word_combo_false h3'
          have hc6 : (str "photo showing ").isPrefixOf ls = false := by
            rw [show (str "photo showing ") = (str "photo") ++ (str " showing ") from rfl]
            exact word_combo_false h3'
          rw [List.find?_cons_of_neg _ (by simp [hc1]), List.find?_cons_of_neg _ (by simp [hc2]),
            List.find?_cons_of_neg _ (by simp [hc3]), List.find?_cons_of_neg _ (by simp [hc4]),
            List.find?_cons_of_neg _ (by simp [hc5]), List.find?_cons_of_neg _ (by simp [hc6])]
          rw [show (str "screenshot of ")
              = (str "screenshot") ++ (' ' :: (str "of" ++ [' '])) from rfl,
            show (str "screenshot showing ")
              = (str "screenshot") ++ (' ' :: (str "showing" ++ [' '])) from rfl]
          exact per_word h4
        · have h4' : (str "screenshot").isPrefixOf ls = false := eq_false_of_ne_true h4
          rw [matchAlt]
          simp only [h1', h2', h3', h4', Bool.false_eq_true, if_false, matchAlt]
          have hall : List.find? (fun p => p.isPrefixOf ls)
              [str "image of ", str "image showing ", str "picture of ",
               str "picture showing ", str "photo of ", str "photo showing ",
               str "screenshot of ", str "screenshot showing "] = none := by
            apply List.find?_eq_none.mpr
            intro x hx
            simp only [List.mem_cons, List.not_mem_nil, or_false] at hx
            rcases hx with rfl | rfl | rfl | rfl | rfl | rfl | rfl | rfl
            · rw [show (str "image of ") = (str "image") ++ (str " of ") from rfl]
              simp [word_combo_false h1']
            · rw [show (str "image showing ") = (str "image") ++ (str " showing ") from rfl]
              simp [word_combo_false h1']
            · rw [show (str "picture of ") = (str "picture") ++ (str " of ") from rfl]
              simp [word_combo_false h2']
            · rw [show (str "picture showing ")
                  = (str "picture") ++ (str " showing ") from rfl]
              simp [word_combo_false h2']
            · rw [show (str "photo of ") = (str "photo") ++ (str " of ") from rfl]
              simp [word_combo_false h3']
            · rw [show (str "photo showing ") = (str "photo") ++ (str " showing ") from rfl]
              simp [word_combo_false h3']
            · rw [show (str "screenshot of ") = (str "screenshot") ++ (str " of ") from rfl]
              simp [word_combo_false h4']
            · rw [show (str "screenshot showing ")
                  = (str "screenshot") ++ (str " showing ") from rfl]
              simp [word_combo_false h4']
          rw [hall]

/-- C2: whenever alt-text optimization applies (non-empty alt text,
option enabled), the optimized alt text is exactly the spec's four steps
in order — strip the redundant-words prefix, strip a trailing image
extension, trim, capitalize a non-empty result — and empty or
option-disabled alt text passes through unchanged; in particular
`diagram.PNG` optimizes to `Diagram`. -/
theorem C2_alt_text_steps :
    (∀ (opts : Options) (alt : List Char),
        optimizeAltText opts alt =
          if alt.isEmpty || !opts.optimizeAltText then alt else altSpecSteps alt) ∧
      optimizeAltText defaultOptions (str "diagram.PNG") = str "Diagram" := by
  refine ⟨?_, by decide⟩
  intro opts alt
  rw [optimizeAltText]
  by_cases h : (alt.isEmpty || !opts.optimizeAltText) = true
  · simp only [h, if_true]
  · simp only [eq_false_of_ne_true h, Bool.false_eq_true, if_false]
    rw [stripAltHead_eq_specStripHead, stripAltExt_eq_specStripExt,
      trimStr_eq_specTrim, altSpecSteps]
